import Mathlib

/-!
Verification of the slogutil attribute-group resolution core and handler adapters.

This file is a shallow embedding of the Go package `github.com/nickbryan/slogutil`:

* `internal/attrs.go` — the persistent `AttrGroupTree` of attribute groups and the
  flattening/deduplication pass (`AttrGroupHistory.DeduplicatedAttrs`);
* `slogmem/record.go` — the in-memory record store and its query matching
  (`Contains`, `ContainsExact`, `recursiveSetField`);
* `slogmem/handler.go` — the in-memory capturing handler's `Handle`;
* `slogctx/extractor.go` — the context-propagating handler's `Handle`.

Go strings are modelled through their character lists (`String.data`); the byte
functions of Go's `strings` package coincide with the character-level versions on
the inputs involved.  Go's mutable `map[string]int` of duplicate counters is
modelled as an association list threaded in state-passing style; Go methods that
mutate their receiver return the updated value instead.  `slog.Value` is modelled
by the inductive `Value` below: the scalar kinds that the claims use (string,
int64), the group kind, and the zero value (`KindAny` holding nil).  LogValuer
values are not modelled; on every other kind Go's `Value.Resolve` is the
identity, which is how `Value.resolve` is defined here.
-/

namespace Slogutil

/-- Model of `slog.Value` (only the kinds the claims exercise): a string scalar,
an int64 scalar, the zero value (`KindAny` holding nil), or a group of
attributes.  An attribute (`slog.Attr`) is a key paired with a value. -/
inductive Value : Type where
  | vnone : Value
  | vstr : String → Value
  | vint : Int → Value
  | vgroup : List (String × Value) → Value
deriving Repr

/-- Model of `slog.Attr`: `{Key string; Value Value}`. -/
abbrev Attr := String × Value

/-- `Value.Kind() == slog.KindGroup`. -/
def Value.isGroup : Value → Bool
  | .vgroup _ => true
  | _ => false

/-- `Value.Group()`: the attribute list of a group value.  Go panics on other
kinds; every call site in the sources first checks the kind, so the non-group
case (never reached) returns the empty list. -/
def Value.groupAttrs : Value → List Attr
  | .vgroup l => l
  | _ => []

/-- `Value.isEmptyGroup` from `log/slog`: a group-kind value with no attributes. -/
def Value.isEmptyGroup : Value → Bool
  | .vgroup l => l.isEmpty
  | _ => false

/-- `slog.GroupValue(as...)`: builds a group value, removing members whose value
is an empty group (done at construction time in `log/slog`). -/
def GroupValue (as : List Attr) : Value :=
  .vgroup (as.filter (fun a => ! a.2.isEmptyGroup))

/-- `slog.Value.Resolve()`: resolves a LogValuer.  LogValuer values are outside
this model; on all modelled kinds Go's Resolve is the identity. -/
def Value.resolve (v : Value) : Value := v

/-- `attrIsEmpty` (attrs.go): the attribute equals the zero `slog.Attr` —
empty key and the zero value. -/
def attrIsEmpty : Attr → Bool
  | ("", .vnone) => true
  | _ => false

/-- `attrGroupIsEmpty` (attrs.go): the value holds no grouped attributes. -/
def attrGroupIsEmpty (a : Attr) : Bool := a.2.groupAttrs.isEmpty

/-! ## groupPath and its string helpers (attrs.go)

`groupPath(path, key)` is
`strings.TrimLeft(path + "[.]" + key', "[.]")` where `key'` is `key` with every
occurrence of the delimiter `"[.]"` replaced by `"___"` (only when the key
contains the delimiter).  `strings.TrimLeft` trims the leading *characters*
drawn from the cutset `{'[', '.', ']'}`. -/

/-- Is a character in the cutset `"[.]"` of `strings.TrimLeft`? -/
def inDelimCutset (c : Char) : Bool := c = '[' || c = '.' || c = ']'

/-- `strings.TrimLeft(s, "[.]")` on character lists: drop the longest prefix of
characters from the cutset. -/
def trimLeftCutset : List Char → List Char
  | [] => []
  | c :: rest => if inDelimCutset c then trimLeftCutset rest else c :: rest

/-- `strings.Contains(s, "[.]")` on character lists. -/
def containsDelim : List Char → Bool
  | '[' :: '.' :: ']' :: _ => true
  | _ :: rest => containsDelim rest
  | [] => false

/-- `strings.ReplaceAll(s, "[.]", "___")` on character lists: scan left to
right, replacing each non-overlapping occurrence of `"[.]"` by `"___"`. -/
def replaceDelim : List Char → List Char
  | '[' :: '.' :: ']' :: rest => '_' :: '_' :: '_' :: replaceDelim rest
  | c :: rest => c :: replaceDelim rest
  | [] => []

/-- The delimiter `"[.]"` as characters. -/
def delimChars : List Char := ['[', '.', ']']

/-- `groupPath` (attrs.go). -/
def groupPath (path key : String) : String :=
  let key := if containsDelim key.data then String.mk (replaceDelim key.data) else key
  String.mk (trimLeftCutset (path.data ++ delimChars ++ key.data))

/-! ## Duplicate-key counters (attrs.go)

Go's `duplicateAttrKeys map[string]int` is modelled as an association list; a
missing key reads as 0 just as a Go map read does. -/

/-- The counter map from fully qualified dotted paths to occurrence counts. -/
abbrev KeyCounts := List (String × Nat)

/-- Map lookup: the stored counter for a key, if present. -/
def KeyCounts.find : KeyCounts → String → Option Nat
  | [], _ => none
  | (k, v) :: rest, key => if k = key then some v else KeyCounts.find rest key

/-- Map write: replace the binding for a key or add a new one. -/
def KeyCounts.set : KeyCounts → String → Nat → KeyCounts
  | [], key, v => [(key, v)]
  | (k, w) :: rest, key, v =>
    if k = key then (k, v) :: rest else (k, w) :: KeyCounts.set rest key v

/-- Go map read: missing keys read as zero. -/
def KeyCounts.read (m : KeyCounts) (key : String) : Nat := (m.find key).getD 0

/-- `trackKey` (attrs.go): increment the counter for the key if set, or
initialize it to zero. -/
def trackKey (m : KeyCounts) (key : String) : KeyCounts :=
  match m.find key with
  | some n => m.set key (n + 1)
  | none => m.set key 0

/-- `fmt.Sprintf("%02d", n)` for a non-negative count: zero-pad to two digits. -/
def padTwo (n : Nat) : String := if n < 10 then "0" ++ toString n else toString n

/-- `deduplicatedKey` (attrs.go): the key itself on a first occurrence
(counter zero), otherwise the key suffixed with `#NN`. -/
def deduplicatedKey (m : KeyCounts) (key pathWithKey : String) : String :=
  if m.read pathWithKey = 0 then key else key ++ "#" ++ padTwo (m.read pathWithKey)

/-! ## The resolution pass (attrs.go)

`resolveAttrs` processes one attribute list in order, threading the shared
counter map; `resolveGroups` is `AttrGroupHistory.resolve`, processing the
root-to-leaf group sequence. -/

/-- `resolveAttrs` (attrs.go): skip zero attributes; track every qualified key;
emit scalars with deduplicated keys; splice groups with empty keys in place;
drop named empty groups; recursively resolve named groups under the
(possibly suffixed) qualified path.  The counter map is threaded through. -/
def resolveAttrs : KeyCounts → String → List Attr → List Attr × KeyCounts
  | m, _, [] => ([], m)
  -- Go first skips the zero attribute, then tracks the qualified key, resolves
  -- the value (the identity here) and classifies its kind.  A group-kind
  -- attribute is never the zero attribute, so the kind cases are split at the
  -- pattern level below with the zero check kept on the non-group case.
  | m, path, (k, .vgroup nested) :: rest =>
    let pathWithKey := groupPath path k
    let m1 := trackKey m pathWithKey
    if k = "" then
      let inner := resolveAttrs m1 pathWithKey nested
      let rests := resolveAttrs inner.2 path rest
      (inner.1 ++ rests.1, rests.2)
    else if nested.isEmpty then
      resolveAttrs m1 path rest
    else
      let key := deduplicatedKey m1 k pathWithKey
      let path' := deduplicatedKey m1 pathWithKey pathWithKey
      let inner := resolveAttrs m1 path' nested
      let rests := resolveAttrs inner.2 path rest
      ((key, GroupValue inner.1) :: rests.1, rests.2)
  | m, path, (k, v) :: rest =>
    if attrIsEmpty (k, v) then resolveAttrs m path rest
    else
      let pathWithKey := groupPath path k
      let m1 := trackKey m pathWithKey
      let key := deduplicatedKey m1 k pathWithKey
      let rests := resolveAttrs m1 path rest
      ((key, v.resolve) :: rests.1, rests.2)

/-! ## The attribute-group tree (attrs.go) -/

/-- `AttrGroup` (attrs.go): an immutable named bucket of attributes plus its
qualified path from the root. -/
structure AttrGroup where
  name : String
  path : String
  attrs : List Attr

/-- `AttrGroupTree` (attrs.go): the current `AttrGroup` plus an optional
ancestor pointer (`nil` at the root). -/
inductive AttrGroupTree : Type where
  | node : AttrGroup → Option AttrGroupTree → AttrGroupTree

/-- The embedded `AttrGroup` of a tree node. -/
def AttrGroupTree.group : AttrGroupTree → AttrGroup
  | .node g _ => g

/-- The `ancestor` pointer of a tree node. -/
def AttrGroupTree.ancestor : AttrGroupTree → Option AttrGroupTree
  | .node _ a => a

/-- `NewAttrGroupTree` (attrs.go): the empty root tree. -/
def NewAttrGroupTree : AttrGroupTree :=
  .node { name := "", path := "", attrs := [] } none

/-- `AttrGroupTree.WithAttrs` (attrs.go): a new tree with the attributes
appended to the current group; the receiver itself when `attrs` is empty.
The ancestor chain is shared, not copied.  The list concatenation here models
the VALUE of the slice `append(agt.attrs, attrs...)` returns; it elides the
Go backing-array reuse of `append` (two sibling derivations of one receiver
with spare capacity share and overwrite the same array slot), which is
modelled separately by `goAppend`/`AttrGroupTreeS.WithAttrsS` below. -/
def AttrGroupTree.WithAttrs (agt : AttrGroupTree) (attrs : List Attr) : AttrGroupTree :=
  if attrs.isEmpty then agt
  else
    .node { name := agt.group.name, path := agt.group.path,
            attrs := agt.group.attrs ++ attrs } agt.ancestor

/-- `AttrGroupTree.WithGroup` (attrs.go): the receiver when `name` is empty;
otherwise a new tree whose current group is named `name` with path
`groupPath(receiver.path, name)` and no attributes, with the receiver as
ancestor. -/
def AttrGroupTree.WithGroup (agt : AttrGroupTree) (name : String) : AttrGroupTree :=
  if name = "" then agt
  else .node { name := name, path := groupPath agt.group.path name, attrs := [] } (some agt)

/-- The ancestor chain of a tree materialized root-first, as
`AttrGroupTree.History` (attrs.go) builds it by walking the `ancestor`
pointers and filling the slice from the back. -/
def AttrGroupTree.historyGroups : AttrGroupTree → List AttrGroup
  | .node g none => [g]
  | .node g (some anc) => anc.historyGroups ++ [g]

/-- `AttrGroupHistory` (attrs.go): the root-first group sequence plus the
duplicate-key counters used during resolution. -/
structure AttrGroupHistory where
  groups : List AttrGroup
  duplicateAttrKeys : KeyCounts

/-- `AttrGroupTree.History` (attrs.go): a fresh history (empty counters) for
the tree's root-first group sequence. -/
def AttrGroupTree.History (agt : AttrGroupTree) : AttrGroupHistory :=
  { groups := agt.historyGroups, duplicateAttrKeys := [] }

/-- `AttrGroupHistory.PushFront` (attrs.go): prepend the attributes to the
root group's attribute list; a no-op when the history has no groups or when
`attrs` is empty. -/
def AttrGroupHistory.PushFront (agh : AttrGroupHistory) (attrs : List Attr) : AttrGroupHistory :=
  match agh.groups, attrs.isEmpty with
  | [], _ => agh
  | _, true => agh
  | g :: gs, false =>
    { groups := { name := g.name, path := g.path, attrs := attrs ++ g.attrs } :: gs,
      duplicateAttrKeys := agh.duplicateAttrKeys }

/-- `AttrGroupHistory.resolve` (attrs.go) in state-passing form over the group
sequence: resolve the first group's own attributes, then the descendant groups
with the same counter state, concatenate, and either return the concatenation
as-is (empty group name: the true root) or wrap it into a single group-valued
attribute whose key is tracked and deduplicated at
`groupPath(group.path, name)`.  (Go recurses only when more groups remain;
recursing on the empty tail returns `([], m)` and is identical.) -/
def resolveGroups : KeyCounts → List AttrGroup → List Attr × KeyCounts
  | m, [] => ([], m)
  | m, g :: rest =>
    let resolved := resolveAttrs m g.path g.attrs
    let desc := resolveGroups resolved.2 rest
    let allAttrs := resolved.1 ++ desc.1
    if g.name = "" then (allAttrs, desc.2)
    else
      let key := g.name
      let pathWithKey := groupPath g.path key
      let m3 := trackKey desc.2 pathWithKey
      ([(deduplicatedKey m3 key pathWithKey, GroupValue allAttrs)], m3)

/-- `AttrGroupHistory.DeduplicatedAttrs` (attrs.go): the resolved flat
attribute list.  Go mutates the history's counter map in place; the model
returns the history carrying the updated counters alongside the list. -/
def AttrGroupHistory.DeduplicatedAttrs (agh : AttrGroupHistory) :
    List Attr × AttrGroupHistory :=
  let r := resolveGroups agh.duplicateAttrKeys agh.groups
  (r.1, { groups := agh.groups, duplicateAttrKeys := r.2 })

/-! ## slogmem: logged records and query matching (record.go)

The flattened form of a record (`map[string]any` whose entries are scalars or
nested maps) is the inductive `FlatVal`; a Go map is modelled as an
association list with replace-or-append writes.  Go's panics are modelled as
`Except.error` carrying the panic message. -/

/-- An entry of a flattened record: a scalar (`any`) or a nested map. -/
inductive FlatVal : Type where
  | prim : Value → FlatVal
  | fmap : List (String × FlatVal) → FlatVal

/-- A flattened record, `map[string]any`. -/
abbrev RecMap := List (String × FlatVal)

/-- Go map read on a flattened record. -/
def recFind : RecMap → String → Option FlatVal
  | [], _ => none
  | (k, v) :: rest, key => if k = key then some v else recFind rest key

/-- Go map write on a flattened record: replace the binding or add it. -/
def recInsert : RecMap → String → FlatVal → RecMap
  | [], key, v => [(key, v)]
  | (k, w) :: rest, key, v =>
    if k = key then (k, v) :: rest else (k, w) :: recInsert rest key v

/-- `strings.Split(s, ".")` on character lists (always at least one piece). -/
def splitOnDot : List Char → List (List Char)
  | [] => [[]]
  | c :: rest =>
    if c = '.' then [] :: splitOnDot rest
    else
      match splitOnDot rest with
      | [] => [[c]]
      | p :: ps => (c :: p) :: ps

/-- `recursiveSetField` (record.go) over the list of path components.  Go
splits the dotted path, consumes the first component and recurses on the
re-joined remainder; since the split components contain no dot, re-splitting
the re-joined remainder gives back exactly the remaining components, which is
the recursion modelled here.  The two panics become `Except.error`.  Go never
reaches an empty component list (`strings.Split` returns at least one piece);
that case returns the record unchanged. -/
def recursiveSetFieldKeys : RecMap → List String → Value → Except String RecMap
  | record, [], _ => .ok record
  | record, currentKey :: remainingKeys, value =>
    if remainingKeys.isEmpty then
      -- `len(keys) == 1`
      if value.isGroup then
        .error "slog.GroupValue cannot be used as a value when checking attrs, for nested attrs use dot notation instead"
      else .ok (recInsert record currentKey (.prim value))
    else
      match recFind record currentKey with
      | some (.fmap ckv) => do
        let nested ← recursiveSetFieldKeys ckv remainingKeys value
        pure (recInsert record currentKey (.fmap nested))
      | some (.prim _) => .error "unexpected attr value type"
      | none => do
        let nestedGroup ← recursiveSetFieldKeys [] remainingKeys value
        pure (recInsert record currentKey (.fmap nestedGroup))

/-- `recursiveSetField` (record.go): split the dotted field path and set. -/
def recursiveSetField (record : RecMap) (fieldPath : String) (value : Value) :
    Except String RecMap :=
  recursiveSetFieldKeys record ((splitOnDot fieldPath.data).map String.mk) value

/-- `RecordQuery` (record.go): level, message and a mapping of dot-separated
attribute paths to expected values.  The Go map over paths is modelled as an
association list (Go's iteration order is unspecified; the claims proved below
hold for the listed order). -/
structure RecordQuery where
  level : Int
  message : String
  attrs : List (String × Value)

/-- The `for path, value := range recordQuery.Attrs` loop of
`flattenRecordQuery` (record.go): set each queried path in turn; the first
path whose set panics makes the whole loop panic. -/
def setQueryAttrs : RecMap → List (String × Value) → Except String RecMap
  | record, [] => .ok record
  | record, pv :: rest => do
    let record ← recursiveSetField record pv.1 pv.2
    setQueryAttrs record rest

/-- `flattenRecordQuery` (record.go): seed the flattened query with
`slog.LevelKey` and `slog.MessageKey`, then set each queried path. -/
def flattenRecordQuery (query : RecordQuery) : Except String RecMap :=
  setQueryAttrs
    (recInsert (recInsert [] "level" (.prim (.vint query.level)))
      "msg" (.prim (.vstr query.message)))
    query.attrs

/-- `LoggedRecord` (record.go): time, level, message and resolved attributes.
Time is modelled as an integer timestamp. -/
structure LoggedRecord where
  time : Int
  level : Int
  message : String
  attrs : List Attr

mutual

/-- `mapAttr` (record.go): write a resolved attribute into a flattened record,
unpacking group values into nested maps. -/
def mapAttr : RecMap → Attr → RecMap
  | record, (k, .vgroup gas) => recInsert record k (.fmap (mapAttrList [] gas))
  | record, (k, v) => recInsert record k (.prim v)

/-- The loop of `mapAttr` over a group's attributes (record.go). -/
def mapAttrList : RecMap → List Attr → RecMap
  | record, [] => record
  | record, a :: rest => mapAttrList (mapAttr record a) rest

end

/-- One record of `AsSliceOfNestedKeyValuePairs` (record.go): time, level and
message under the `slog` keys, then every attribute mapped in. -/
def flattenLoggedRecord (rec : LoggedRecord) : RecMap :=
  mapAttrList
    (recInsert (recInsert (recInsert [] "time" (.prim (.vint rec.time)))
      "level" (.prim (.vint rec.level))) "msg" (.prim (.vstr rec.message)))
    rec.attrs

/-- `LoggedRecords.compare` (record.go): flatten the query (which panics on a
group-valued query entry), then report whether some flattened record matches.
The go-cmp comparison assembled from `cmp.Option` values (`cmpOpts`,
`includePaths`) is an external library and is abstracted as the `eqFn`
argument, exactly where Go passes `opts`.  The nondeterministic diff string
(a convenience output for failed tests) is not modelled. -/
def compareRecords (records : List LoggedRecord) (query : RecordQuery)
    (eqFn : RecMap → RecMap → Bool) : Except String Bool := do
  let flattenedQuery ← flattenRecordQuery query
  pure (records.any fun rec => eqFn flattenedQuery (flattenLoggedRecord rec))

/-- `LoggedRecords.Contains` (record.go): a loose match checking only the
queried paths plus message and level; `eqFn` stands for go-cmp equality under
`cmpOpts()` plus `includePaths` (external library). -/
def Contains (records : List LoggedRecord) (query : RecordQuery)
    (eqFn : RecMap → RecMap → Bool) : Except String Bool :=
  compareRecords records query eqFn

/-- `LoggedRecords.ContainsExact` (record.go): an exact match; `eqFn` stands
for go-cmp equality under `cmpOpts()` (external library). -/
def ContainsExact (records : List LoggedRecord) (query : RecordQuery)
    (eqFn : RecMap → RecMap → Bool) : Except String Bool :=
  compareRecords records query eqFn

/-! ## Handlers (slogmem/handler.go, slogctx/extractor.go) -/

/-- A Go error value: either a base error or `fmt.Errorf("...: %w", err)`. -/
inductive GoError : Type where
  | base : String → GoError
  | wrap : String → GoError → GoError
deriving Repr, DecidableEq

/-- Model of `slog.Record`: time, level, message, pc and attributes. -/
structure SlogRecord where
  time : Int
  level : Int
  message : String
  pc : Nat
  attrs : List Attr

/-- The in-memory `slogmem.Handler`: its persistent attribute tree and the
threshold level of its leveler.  The shared `loggedRecords` store is passed
explicitly to `Handle`. -/
structure MemHandler where
  persistentAttrs : AttrGroupTree
  level : Int

/-- `slogmem.Handler.Enabled`: levels at or above the leveler's level. -/
def MemHandler.Enabled (h : MemHandler) (level : Int) : Bool := level ≥ h.level

/-- `slogmem.Handler.Handle` (handler.go): collect the record's attributes,
resolve them against the persistent tree, append the `LoggedRecord` to the
store, and return nil.  The mutable store is modelled by returning the new
record list alongside the (always nil) error. -/
def MemHandler.Handle (h : MemHandler) (records : List LoggedRecord)
    (record : SlogRecord) : List LoggedRecord × Option GoError :=
  let recordAttrs := record.attrs
  (records ++
    [{ time := record.time, level := record.level, message := record.message,
       attrs := ((h.persistentAttrs.WithAttrs recordAttrs).History.DeduplicatedAttrs).1 }],
   none)

/-- The context-propagating `slogctx.Handler`: the wrapped downstream handler
(`inner`, returning nil or an error), the persistent attribute tree, and the
two extractor lists.  An extractor returning `none` models a nil slice. -/
structure CtxHandler (Ctx : Type) where
  inner : Ctx → SlogRecord → Option GoError
  persistentAttrs : AttrGroupTree
  attrExtractors : List (Ctx → Option (List Attr))
  rootAttrExtractors : List (Ctx → Option (List Attr))

/-- The record `slogctx.Handler.Handle` (extractor.go) builds before calling
the downstream handler: record attributes, then append-extracted attributes,
resolved against the persistent tree with root-extracted attributes pushed to
the front, all flattened by `DeduplicatedAttrs`. -/
def ctxHandleRecord {Ctx : Type} (h : CtxHandler Ctx) (ctx : Ctx)
    (record : SlogRecord) : SlogRecord :=
  let recordAttrs := record.attrs
  let recordAttrs := h.attrExtractors.foldl
    (fun acc ex => match ex ctx with
      | some attrs => acc ++ attrs
      | none => acc) recordAttrs
  let ordered := (h.persistentAttrs.WithAttrs recordAttrs).History
  let ordered := h.rootAttrExtractors.foldl
    (fun agh ex => match ex ctx with
      | some attrs => agh.PushFront attrs
      | none => agh) ordered
  { time := record.time, level := record.level, message := record.message,
    pc := record.pc, attrs := ordered.DeduplicatedAttrs.1 }

/-- `slogctx.Handler.Handle` (extractor.go): build the resolved record, pass
it to the wrapped handler, and wrap any downstream error with
`"passing record to inner handler: %w"`; return nil otherwise. -/
def CtxHandler.Handle {Ctx : Type} (h : CtxHandler Ctx) (ctx : Ctx)
    (record : SlogRecord) : Option GoError :=
  match h.inner ctx (ctxHandleRecord h ctx record) with
  | some err => some (.wrap "passing record to inner handler" err)
  | none => none

/-! ## Slice-level model of the attribute tree (attrs.go over Go append)

`AttrGroupTree.WithAttrs` above models the value of the appended slice; the
definitions here additionally model the Go slice mechanics the source relies
on: a slice is a header (backing array plus length) into a heap of backing
arrays, and `append` reuses the receiver's backing array whenever the spare
capacity suffices, writing the new elements into cells that other slice
headers over the same array may already cover.  The attribute slices in
attrs.go always start at offset zero, so a header needs no offset field. -/

/-- A Go slice header over the attribute heap: the backing array id and the
slice length. -/
structure GoSlice where
  aid : Nat
  len : Nat

/-- The heap of backing arrays; each cell list has length equal to the array
capacity, unwritten cells holding the zero attribute. -/
abbrev AttrHeap := List (List Attr)

/-- The zero `slog.Attr`, the content of unwritten backing cells. -/
def zeroAttr : Attr := ("", Value.vnone)

/-- The live elements a slice header denotes under a heap. -/
def readSlice (h : AttrHeap) (s : GoSlice) : List Attr :=
  (h.getD s.aid []).take s.len

/-- `append(s, xs...)` of the Go runtime for the attribute slices used here:
when the needed length fits the capacity, the new elements are written into
the shared backing array in place; otherwise a fresh array is allocated with
the doubled (or exactly needed) capacity and the live elements are copied.
The doubling growth matches the amd64 runtime for the 40-byte `slog.Attr`
element and the small element counts exercised below (0 to 2 gives capacity
2, 2 to 3 gives capacity 4). -/
def goAppend (h : AttrHeap) (s : GoSlice) (xs : List Attr) : GoSlice × AttrHeap :=
  let arr := h.getD s.aid []
  let cap := arr.length
  let needed := s.len + xs.length
  if needed ≤ cap then
    (⟨s.aid, needed⟩, h.set s.aid (arr.take s.len ++ xs ++ arr.drop needed))
  else
    let newcap := if cap = 0 then needed else max (2 * cap) needed
    (⟨h.length, needed⟩,
     h ++ [arr.take s.len ++ xs ++ List.replicate (newcap - needed) zeroAttr])

/-- `AttrGroup` with its attribute list as a slice header into the heap. -/
structure AttrGroupS where
  name : String
  path : String
  attrs : GoSlice

/-- `AttrGroupTree` over slice headers. -/
inductive AttrGroupTreeS : Type where
  | node : AttrGroupS → Option AttrGroupTreeS → AttrGroupTreeS

/-- The embedded group of a slice-level tree node. -/
def AttrGroupTreeS.group : AttrGroupTreeS → AttrGroupS
  | .node g _ => g

/-- The ancestor pointer of a slice-level tree node. -/
def AttrGroupTreeS.ancestor : AttrGroupTreeS → Option AttrGroupTreeS
  | .node _ a => a

/-- `NewAttrGroupTree` at slice level: `make([]slog.Attr, 0)` allocates a
fresh empty backing array of capacity zero. -/
def NewAttrGroupTreeS (h : AttrHeap) : AttrGroupTreeS × AttrHeap :=
  (.node { name := "", path := "", attrs := ⟨h.length, 0⟩ } none, h ++ [[]])

/-- `AttrGroupTree.WithAttrs` at slice level: `append(agt.attrs, attrs...)`
through `goAppend`, threading the heap the append may mutate. -/
def AttrGroupTreeS.WithAttrsS (agt : AttrGroupTreeS) (h : AttrHeap)
    (attrs : List Attr) : AttrGroupTreeS × AttrHeap :=
  if attrs.isEmpty then (agt, h)
  else
    let r := goAppend h agt.group.attrs attrs
    (.node { name := agt.group.name, path := agt.group.path, attrs := r.1 }
      agt.ancestor, r.2)

/-- The root-first group sequence of a slice-level tree, reading every
attribute slice through the current heap — as `History()` does when it
materializes the chain at emission time. -/
def AttrGroupTreeS.historyGroupsS (h : AttrHeap) : AttrGroupTreeS → List AttrGroup
  | .node g none => [{ name := g.name, path := g.path, attrs := readSlice h g.attrs }]
  | .node g (some anc) =>
    anc.historyGroupsS h ++
      [{ name := g.name, path := g.path, attrs := readSlice h g.attrs }]

/-- `AttrGroupTree.History` at slice level: a fresh history over the group
sequence read through the current heap. -/
def AttrGroupTreeS.HistoryS (agt : AttrGroupTreeS) (h : AttrHeap) : AttrGroupHistory :=
  { groups := agt.historyGroupsS h, duplicateAttrKeys := [] }

end Slogutil

namespace Slogutil

/-! ## Helper lemmas -/

/-- `strings.Split` always yields at least one piece. -/
lemma splitOnDot_ne_nil (l : List Char) : splitOnDot l ≠ [] := by
  induction l with
  | nil => simp [splitOnDot]
  | cons c rest ih =>
    rw [splitOnDot]
    split
    · simp
    · cases h : splitOnDot rest <;> simp

/-- Binding an `Except.error` short-circuits. -/
lemma except_error_bind {ε α β : Type} (e : ε) (f : α → Except ε β) :
    (Except.error e >>= f) = Except.error e := rfl

/-- Binding an `Except.ok` applies the continuation. -/
lemma except_ok_bind {ε α β : Type} (a : α) (f : α → Except ε β) :
    (Except.ok a >>= f : Except ε β) = f a := rfl

/-- Mapping over an `Except.error` short-circuits. -/
lemma except_map_error {ε α β : Type} (e : ε) (f : α → β) :
    (f <$> (Except.error e : Except ε α)) = Except.error e := rfl

/-- One unfolding step of `recursiveSetFieldKeys` at a singleton path. -/
lemma recursiveSetFieldKeys_single (record : RecMap) (k : String) (v : Value) :
    recursiveSetFieldKeys record [k] v =
      (if v.isGroup then
        Except.error "slog.GroupValue cannot be used as a value when checking attrs, for nested attrs use dot notation instead"
      else .ok (recInsert record k (.prim v))) := rfl

/-- One unfolding step of `recursiveSetFieldKeys` at a longer path. -/
lemma recursiveSetFieldKeys_cons (record : RecMap) (k k2 : String)
    (rest : List String) (v : Value) :
    recursiveSetFieldKeys record (k :: k2 :: rest) v =
      (match recFind record k with
        | some (.fmap ckv) => do
          let nested ← recursiveSetFieldKeys ckv (k2 :: rest) v
          pure (recInsert record k (.fmap nested))
        | some (.prim _) => .error "unexpected attr value type"
        | none => do
          let nestedGroup ← recursiveSetFieldKeys [] (k2 :: rest) v
          pure (recInsert record k (.fmap nestedGroup))) := rfl

/-- One unfolding step of the query-flattening loop. -/
lemma setQueryAttrs_cons (record : RecMap) (pv : String × Value)
    (rest : List (String × Value)) :
    setQueryAttrs record (pv :: rest) =
      (recursiveSetField record pv.1 pv.2 >>= fun r => setQueryAttrs r rest) := rfl

/-- Setting a group-kind value at any non-empty key path panics: either the
leaf is reached and the group-value guard fires, or an intermediate scalar
is hit and the type guard fires. -/
lemma recursiveSetFieldKeys_group_error :
    ∀ (keys : List String) (record : RecMap) (v : Value),
      keys ≠ [] → v.isGroup = true →
      ∃ e, recursiveSetFieldKeys record keys v = Except.error e
  | [], _, _, hk, _ => absurd rfl hk
  | [k], record, v, _, hv =>
    ⟨"slog.GroupValue cannot be used as a value when checking attrs, for nested attrs use dot notation instead",
      by simp [recursiveSetFieldKeys, hv]⟩
  | k :: k2 :: rest, record, v, _, hv => by
    rw [recursiveSetFieldKeys_cons]
    cases hfind : recFind record k with
    | none =>
      obtain ⟨e, he⟩ :=
        recursiveSetFieldKeys_group_error (k2 :: rest) [] v (by simp) hv
      exact ⟨e, by simp only [he, except_error_bind]⟩
    | some fv =>
      cases fv with
      | prim p => exact ⟨"unexpected attr value type", rfl⟩
      | fmap ckv =>
        obtain ⟨e2, he2⟩ :=
          recursiveSetFieldKeys_group_error (k2 :: rest) ckv v (by simp) hv
        exact ⟨e2, by simp only [he2, except_error_bind]⟩

/-- The query-flattening loop panics as soon as some entry carries a
group-kind value (an earlier entry may panic first; the loop panics either
way). -/
lemma setQueryAttrs_group_error :
    ∀ (l : List (String × Value)) (record : RecMap),
      (l.any fun pv => pv.2.isGroup) = true →
      ∃ e, setQueryAttrs record l = Except.error e
  | [], _, h => by simp at h
  | pv :: rest, record, h => by
    rw [setQueryAttrs_cons]
    by_cases hg : pv.2.isGroup = true
    · obtain ⟨e, he⟩ := recursiveSetFieldKeys_group_error
        ((splitOnDot pv.1.data).map String.mk) record pv.2
        (by simpa using splitOnDot_ne_nil pv.1.data) hg
      have hset : recursiveSetField record pv.1 pv.2 = Except.error e := he
      exact ⟨e, by rw [hset, except_error_bind]⟩
    · have hrest : (rest.any fun pv => pv.2.isGroup) = true := by
        simp only [List.any_cons, hg, Bool.false_or] at h
        exact h
      cases hres : recursiveSetField record pv.1 pv.2 with
      | error e => exact ⟨e, except_error_bind e _⟩
      | ok r =>
        obtain ⟨e, he⟩ := setQueryAttrs_group_error rest r hrest
        exact ⟨e, (except_ok_bind r _).trans he⟩

/-- A query with a group-kind value anywhere in its attrs fails to flatten. -/
lemma flattenRecordQuery_group_error (query : RecordQuery)
    (h : (query.attrs.any fun pv => pv.2.isGroup) = true) :
    ∃ e, flattenRecordQuery query = Except.error e :=
  setQueryAttrs_group_error query.attrs _ h

end Slogutil

namespace Slogutil

/-! ## Claim theorems -/

/-- C1 (counterexample): the claim that two successive `DeduplicatedAttrs`
calls return the same attribute list fails at the one-attribute history built
from `NewAttrGroupTree().WithAttrs([{"a","v"}])`: the first call returns the
key unsuffixed, the second call returns it suffixed `a#01`, because the
counter tracked by the first pass persists and is incremented again. -/
theorem deduplicatedAttrs_second_call_differs :
    ((NewAttrGroupTree.WithAttrs [("a", Value.vstr "v")]).History.DeduplicatedAttrs).1 =
      [("a", Value.vstr "v")] ∧
    (((NewAttrGroupTree.WithAttrs [("a", Value.vstr "v")]).History.DeduplicatedAttrs).2.DeduplicatedAttrs).1 =
      [("a#01", Value.vstr "v")] ∧
    ((NewAttrGroupTree.WithAttrs [("a", Value.vstr "v")]).History.DeduplicatedAttrs).1 ≠
      (((NewAttrGroupTree.WithAttrs [("a", Value.vstr "v")]).History.DeduplicatedAttrs).2.DeduplicatedAttrs).1 := by
  have h1 : ((NewAttrGroupTree.WithAttrs [("a", Value.vstr "v")]).History.DeduplicatedAttrs).1 =
      [("a", Value.vstr "v")] := by
    simp [NewAttrGroupTree, AttrGroupTree.WithAttrs, AttrGroupTree.History,
      AttrGroupTree.historyGroups, AttrGroupTree.group, AttrGroupTree.ancestor,
      AttrGroupHistory.DeduplicatedAttrs, resolveGroups, resolveAttrs, groupPath,
      trackKey, deduplicatedKey, attrIsEmpty, KeyCounts.find, KeyCounts.set,
      KeyCounts.read, padTwo, containsDelim, trimLeftCutset, delimChars,
      inDelimCutset, Value.resolve]
  have h2 : (((NewAttrGroupTree.WithAttrs [("a", Value.vstr "v")]).History.DeduplicatedAttrs).2.DeduplicatedAttrs).1 =
      [("a#01", Value.vstr "v")] := by
    simp [NewAttrGroupTree, AttrGroupTree.WithAttrs, AttrGroupTree.History,
      AttrGroupTree.historyGroups, AttrGroupTree.group, AttrGroupTree.ancestor,
      AttrGroupHistory.DeduplicatedAttrs, resolveGroups, resolveAttrs, groupPath,
      trackKey, deduplicatedKey, attrIsEmpty, KeyCounts.find, KeyCounts.set,
      KeyCounts.read, padTwo, containsDelim, trimLeftCutset, delimChars,
      inDelimCutset, Value.resolve]
    all_goals decide
  refine ⟨h1, h2, ?_⟩
  rw [h1, h2]
  simp

/-- C1 (amended): a second `DeduplicatedAttrs` call returns the same list as
the first exactly in the degenerate situation where the first pass tracked no
key, i.e. left the counter map unchanged (for instance on the empty root
history); whenever any key was tracked, the persisted counters make the second
call suffix it further, as the counterexample shows. -/
theorem deduplicatedAttrs_second_call_stable_when_untracked
    (agh : AttrGroupHistory)
    (h : (agh.DeduplicatedAttrs).2.duplicateAttrKeys = agh.duplicateAttrKeys) :
    ((agh.DeduplicatedAttrs).2.DeduplicatedAttrs).1 = (agh.DeduplicatedAttrs).1 := by
  obtain ⟨gs, m⟩ := agh
  simp only [AttrGroupHistory.DeduplicatedAttrs] at h ⊢
  rw [h]

/-- C1 (witness): the empty root history tracks nothing, so there the second
call does agree with the first. -/
theorem deduplicatedAttrs_second_call_stable_witness :
    (NewAttrGroupTree.History.DeduplicatedAttrs).2.duplicateAttrKeys =
      NewAttrGroupTree.History.duplicateAttrKeys ∧
    ((NewAttrGroupTree.History.DeduplicatedAttrs).2.DeduplicatedAttrs).1 =
      (NewAttrGroupTree.History.DeduplicatedAttrs).1 :=
  ⟨by simp [NewAttrGroupTree, AttrGroupTree.History, AttrGroupTree.historyGroups,
      AttrGroupHistory.DeduplicatedAttrs, resolveGroups, resolveAttrs],
   deduplicatedAttrs_second_call_stable_when_untracked NewAttrGroupTree.History
    (by simp [NewAttrGroupTree, AttrGroupTree.History, AttrGroupTree.historyGroups,
      AttrGroupHistory.DeduplicatedAttrs, resolveGroups, resolveAttrs])⟩

/-- C2 (counterexample): entering group `g` on the root and adding no
attributes does NOT drop the group from `History().DeduplicatedAttrs()`: the
result is the single attribute `g` carrying an empty group value, so the
resolved output does contain a `g` key. -/
theorem emptyGroup_emitted_at_root :
    ((NewAttrGroupTree.WithGroup "g").History.DeduplicatedAttrs).1 =
      [("g", Value.vgroup [])] ∧
    ((NewAttrGroupTree.WithGroup "g").History.DeduplicatedAttrs).1.map Prod.fst = ["g"] := by
  have h1 : ((NewAttrGroupTree.WithGroup "g").History.DeduplicatedAttrs).1 =
      [("g", Value.vgroup [])] := by
    simp [NewAttrGroupTree, AttrGroupTree.WithGroup, AttrGroupTree.History,
      AttrGroupTree.historyGroups, AttrGroupTree.group, AttrGroupTree.ancestor,
      AttrGroupHistory.DeduplicatedAttrs, resolveGroups, resolveAttrs, groupPath,
      trackKey, deduplicatedKey, KeyCounts.find, KeyCounts.set, KeyCounts.read,
      padTwo, containsDelim, trimLeftCutset, delimChars, inDelimCutset,
      GroupValue, Value.isEmptyGroup]
  exact ⟨h1, by rw [h1]; rfl⟩

/-- C2 (amended): a group entered via `WithGroup` and left empty is emitted at
the root of the resolved output as a single attribute holding an empty group
value; only when the empty group sits inside an enclosing named group does
`slog.GroupValue` (applied while wrapping the enclosing group) drop it, so the
inner of two nested empty groups vanishes while the outer one is still emitted
with an empty group value. -/
theorem emptyGroup_root_emitted_nested_dropped :
    (((NewAttrGroupTree.WithGroup "groupA").WithGroup "groupB").History.DeduplicatedAttrs).1 =
      [("groupA", Value.vgroup [])] ∧
    ((NewAttrGroupTree.WithGroup "rootOnly").History.DeduplicatedAttrs).1 =
      [("rootOnly", Value.vgroup [])] := by
  constructor <;>
    simp [NewAttrGroupTree, AttrGroupTree.WithGroup, AttrGroupTree.History,
      AttrGroupTree.historyGroups, AttrGroupTree.group, AttrGroupTree.ancestor,
      AttrGroupHistory.DeduplicatedAttrs, resolveGroups, resolveAttrs, groupPath,
      trackKey, deduplicatedKey, KeyCounts.find, KeyCounts.set, KeyCounts.read,
      padTwo, containsDelim, trimLeftCutset, delimChars, inDelimCutset,
      GroupValue, Value.isEmptyGroup]

/-- C3 (code evaluation at the failing input): the copy-on-write claim is
violated by the Go slice mechanics.  Build
`T = NewAttrGroupTree().WithAttrs([k1,k2]).WithAttrs([k3])` — whose backing
array has length 3 and capacity 4 — then derive `T1 = T.WithAttrs([k4])`
(written in place into the spare slot) and later, independently,
`T.WithAttrs([k5])` (written in place into the same slot).  Before the later
derivation, `T1.History().DeduplicatedAttrs()` reports `k4=v4`; after it, the
same `T1` reports `k5=v5` in that position: deriving from `T` changed what
the previously obtained `T1` reports, contradicting the claim (and the
`WithAttrs` doc comment, which promises a new copy). -/
theorem withAttrs_shared_backing_overwrite :
    ((let p0 := NewAttrGroupTreeS []
      let pA := p0.1.WithAttrsS p0.2 [("k1", Value.vstr "v1"), ("k2", Value.vstr "v2")]
      let pT := pA.1.WithAttrsS pA.2 [("k3", Value.vstr "v3")]
      let p1 := pT.1.WithAttrsS pT.2 [("k4", Value.vstr "v4")]
      let p2 := pT.1.WithAttrsS p1.2 [("k5", Value.vstr "v5")]
      (((p1.1.HistoryS p1.2).DeduplicatedAttrs).1,
       ((p1.1.HistoryS p2.2).DeduplicatedAttrs).1)) =
      ([("k1", Value.vstr "v1"), ("k2", Value.vstr "v2"),
        ("k3", Value.vstr "v3"), ("k4", Value.vstr "v4")],
       [("k1", Value.vstr "v1"), ("k2", Value.vstr "v2"),
        ("k3", Value.vstr "v3"), ("k5", Value.vstr "v5")])) ∧
    ([("k1", Value.vstr "v1"), ("k2", Value.vstr "v2"),
      ("k3", Value.vstr "v3"), ("k4", Value.vstr "v4")] : List Attr) ≠
      [("k1", Value.vstr "v1"), ("k2", Value.vstr "v2"),
       ("k3", Value.vstr "v3"), ("k5", Value.vstr "v5")] := by
  constructor
  · simp [NewAttrGroupTreeS, AttrGroupTreeS.WithAttrsS, AttrGroupTreeS.HistoryS,
      AttrGroupTreeS.historyGroupsS, AttrGroupTreeS.group, AttrGroupTreeS.ancestor,
      goAppend, readSlice, zeroAttr, AttrGroupHistory.DeduplicatedAttrs,
      resolveGroups, resolveAttrs, groupPath, trackKey, deduplicatedKey,
      attrIsEmpty, KeyCounts.find, KeyCounts.set, KeyCounts.read, padTwo,
      containsDelim, trimLeftCutset, delimChars, inDelimCutset, Value.resolve]
  · simp

/-- C4: three same-key attributes at the root resolve to `a`, `a#01`, `a#02`
in order, keeping their values: the first occurrence at a qualified path stays
unsuffixed and later occurrences get the zero-padded occurrence index. -/
theorem duplicate_suffixing_flat :
    ((NewAttrGroupTree.WithAttrs
        [("a", Value.vstr "v1"), ("a", Value.vstr "v2"), ("a", Value.vint 3)]).History.DeduplicatedAttrs).1 =
      [("a", Value.vstr "v1"), ("a#01", Value.vstr "v2"), ("a#02", Value.vint 3)] := by
  simp [NewAttrGroupTree, AttrGroupTree.WithAttrs, AttrGroupTree.History,
    AttrGroupTree.historyGroups, AttrGroupTree.group, AttrGroupTree.ancestor,
    AttrGroupHistory.DeduplicatedAttrs, resolveGroups, resolveAttrs, groupPath,
    trackKey, deduplicatedKey, attrIsEmpty, KeyCounts.find, KeyCounts.set,
    KeyCounts.read, padTwo, containsDelim, trimLeftCutset, delimChars,
    inDelimCutset, Value.resolve]
  all_goals decide

end Slogutil

namespace Slogutil

/-- C5 (counterexample): with root attribute `a="1"` and a `WithGroup("a")`
group holding the single child `b="x"`, the emitted group key is NOT `a#01`:
the group wrapper is tracked at qualified path `a[.]a` (its own path plus its
name again), not at the parent path `a`, so it never collides with the root
scalar and both root attributes come out keyed `a`. -/
theorem groupKey_not_suffixed_for_other_child :
    ((((NewAttrGroupTree.WithAttrs [("a", Value.vstr "1")]).WithGroup "a").WithAttrs
        [("b", Value.vstr "x")]).History.DeduplicatedAttrs).1 =
      [("a", Value.vstr "1"), ("a", Value.vgroup [("b", Value.vstr "x")])] ∧
    ((((NewAttrGroupTree.WithAttrs [("a", Value.vstr "1")]).WithGroup "a").WithAttrs
        [("b", Value.vstr "x")]).History.DeduplicatedAttrs).1.map Prod.fst = ["a", "a"] := by
  have h1 : ((((NewAttrGroupTree.WithAttrs [("a", Value.vstr "1")]).WithGroup "a").WithAttrs
        [("b", Value.vstr "x")]).History.DeduplicatedAttrs).1 =
      [("a", Value.vstr "1"), ("a", Value.vgroup [("b", Value.vstr "x")])] := by
    simp [NewAttrGroupTree, AttrGroupTree.WithGroup, AttrGroupTree.WithAttrs,
      AttrGroupTree.History, AttrGroupTree.historyGroups, AttrGroupTree.group,
      AttrGroupTree.ancestor, AttrGroupHistory.DeduplicatedAttrs, resolveGroups,
      resolveAttrs, groupPath, trackKey, deduplicatedKey, attrIsEmpty,
      KeyCounts.find, KeyCounts.set, KeyCounts.read, padTwo, containsDelim,
      trimLeftCutset, delimChars, inDelimCutset, GroupValue, Value.isEmptyGroup,
      Value.resolve]
  exact ⟨h1, by rw [h1]; rfl⟩

/-- C5 (amended): the wrapping key of a `WithGroup` group is deduplicated at
the qualified path formed by appending the group name to the group's own path
(`a[.]a` here), not at the parent path; it therefore collides exactly with the
group's own children whose key equals the group name.  With the single child
keyed `a` (as in the repository test) the output keys are `a` and `a#01`;
with a child keyed `b` (the counterexample) the group stays unsuffixed. -/
theorem groupKey_dedup_at_own_path :
    ((((NewAttrGroupTree.WithAttrs [("a", Value.vstr "aVal")]).WithGroup "a").WithAttrs
        [("a", Value.vstr "aVal")]).History.DeduplicatedAttrs).1 =
      [("a", Value.vstr "aVal"), ("a#01", Value.vgroup [("a", Value.vstr "aVal")])] ∧
    groupPath (groupPath "" "a") "a" = "a[.]a" := by
  constructor
  · simp [NewAttrGroupTree, AttrGroupTree.WithGroup, AttrGroupTree.WithAttrs,
      AttrGroupTree.History, AttrGroupTree.historyGroups, AttrGroupTree.group,
      AttrGroupTree.ancestor, AttrGroupHistory.DeduplicatedAttrs, resolveGroups,
      resolveAttrs, groupPath, trackKey, deduplicatedKey, attrIsEmpty,
      KeyCounts.find, KeyCounts.set, KeyCounts.read, padTwo, containsDelim,
      trimLeftCutset, delimChars, inDelimCutset, GroupValue, Value.isEmptyGroup,
      Value.resolve]
    all_goals decide
  · decide

/-- C6 (counterexample): inside the named group `g`, the sibling `k=1` and the
child `k=2` of an inline (empty-key) group are NOT deduplicated against the
same counter: the inline children resolve at path `g[.]` (the delimiter is
appended and only leading delimiter characters are trimmed), not at `g`, so
the second `k` comes out unsuffixed rather than as `k#01`. -/
theorem inlineGroup_nested_counter_not_shared :
    ((NewAttrGroupTree.WithAttrs
        [("g", GroupValue [("k", Value.vint 1), ("", GroupValue [("k", Value.vint 2)])])]).History.DeduplicatedAttrs).1 =
      [("g", Value.vgroup [("k", Value.vint 1), ("k", Value.vint 2)])] ∧
    ((NewAttrGroupTree.WithAttrs
        [("g", GroupValue [("k", Value.vint 1), ("", GroupValue [("k", Value.vint 2)])])]).History.DeduplicatedAttrs).1 ≠
      [("g", Value.vgroup [("k", Value.vint 1), ("k#01", Value.vint 2)])] := by
  have h1 : ((NewAttrGroupTree.WithAttrs
        [("g", GroupValue [("k", Value.vint 1), ("", GroupValue [("k", Value.vint 2)])])]).History.DeduplicatedAttrs).1 =
      [("g", Value.vgroup [("k", Value.vint 1), ("k", Value.vint 2)])] := by
    simp [NewAttrGroupTree, AttrGroupTree.WithAttrs, AttrGroupTree.History,
      AttrGroupTree.historyGroups, AttrGroupTree.group, AttrGroupTree.ancestor,
      AttrGroupHistory.DeduplicatedAttrs, resolveGroups, resolveAttrs, groupPath,
      trackKey, deduplicatedKey, attrIsEmpty, KeyCounts.find, KeyCounts.set,
      KeyCounts.read, padTwo, containsDelim, trimLeftCutset, delimChars,
      inDelimCutset, GroupValue, Value.isEmptyGroup, Value.resolve]
  refine ⟨h1, ?_⟩
  rw [h1]
  simp

/-- C6 (amended): an inline (empty-key) group is always spliced flat — no
wrapping attribute is produced — but its children resolve at the path
`trimLeftCutset(p ++ "[.]")`: at the root (`p = ""`) that equals `p`, so
root-level inline children share the sibling counter and the later duplicate
gets `#01`; at a non-root path it equals `p ++ "[.]"`, so deeper inline
children do not share the sibling counter (see the counterexample). -/
theorem inlineGroup_splice_paths :
    groupPath "" "" = "" ∧
    groupPath "g" "" = "g[.]" ∧
    ((NewAttrGroupTree.WithAttrs
        [("k", Value.vint 1), ("", GroupValue [("k", Value.vint 2)])]).History.DeduplicatedAttrs).1 =
      [("k", Value.vint 1), ("k#01", Value.vint 2)] := by
  refine ⟨by decide, by decide, ?_⟩
  simp [NewAttrGroupTree, AttrGroupTree.WithAttrs, AttrGroupTree.History,
    AttrGroupTree.historyGroups, AttrGroupTree.group, AttrGroupTree.ancestor,
    AttrGroupHistory.DeduplicatedAttrs, resolveGroups, resolveAttrs, groupPath,
    trackKey, deduplicatedKey, attrIsEmpty, KeyCounts.find, KeyCounts.set,
    KeyCounts.read, padTwo, containsDelim, trimLeftCutset, delimChars,
    inDelimCutset, GroupValue, Value.isEmptyGroup, Value.resolve]
  all_goals decide

/-- C7: a `RecordQuery` whose attrs assign a group-kind value to some
dot-qualified path makes both `Contains` and `ContainsExact` fail loudly with
a panic (modelled as `Except.error`), for every set of logged records and
whatever go-cmp comparison is in effect: the query flattening panics before
any record is compared. -/
theorem contains_group_value_panics (records : List LoggedRecord)
    (query : RecordQuery) (eqFn : RecMap → RecMap → Bool)
    (h : (query.attrs.any fun pv => pv.2.isGroup) = true) :
    (∃ e, Contains records query eqFn = Except.error e) ∧
    (∃ e, ContainsExact records query eqFn = Except.error e) := by
  obtain ⟨e, he⟩ := flattenRecordQuery_group_error query h
  constructor <;>
    exact ⟨e, by
      simp only [Contains, ContainsExact, compareRecords, he, except_error_bind]⟩

/-- C7 (witness): at the concrete query from the repository test — the path
`r1ka` mapped to a group value — both lookups panic on the empty record set. -/
theorem contains_group_value_panics_witness :
    (∃ e, Contains []
        { level := 0, message := "m",
          attrs := [("r1ka", GroupValue [("r1gaka", Value.vstr "r1gava")])] }
        (fun _ _ => true) = Except.error e) ∧
    (∃ e, ContainsExact []
        { level := 0, message := "m",
          attrs := [("r1ka", GroupValue [("r1gaka", Value.vstr "r1gava")])] }
        (fun _ _ => true) = Except.error e) :=
  contains_group_value_panics []
    { level := 0, message := "m",
      attrs := [("r1ka", GroupValue [("r1gaka", Value.vstr "r1gava")])] }
    (fun _ _ => true) (by decide)

/-- C8: the context-propagating handler returns nil exactly when the wrapped
downstream handler returns nil on the transformed record, and any downstream
error comes back wrapped with the added context
`passing record to inner handler`, never swallowed. -/
theorem ctxHandler_propagates_inner_error {Ctx : Type} (h : CtxHandler Ctx)
    (ctx : Ctx) (record : SlogRecord) :
    h.Handle ctx record =
      (h.inner ctx (ctxHandleRecord h ctx record)).map
        (GoError.wrap "passing record to inner handler") ∧
    (h.Handle ctx record = none ↔
      h.inner ctx (ctxHandleRecord h ctx record) = none) := by
  cases hi : h.inner ctx (ctxHandleRecord h ctx record) <;>
    simp [CtxHandler.Handle, hi]

/-- C9: a key containing the literal delimiter `[.]` has every occurrence
replaced by `___` before being joined into the qualified path (keys without
the delimiter are joined as they are); hence the distinct sibling keys
`x[.]y` and `x___y` register under the same qualified path and the later one
is emitted suffixed `#01` even though the original keys differ. -/
theorem groupPath_replaces_delimiter (path key : String) :
    groupPath path key =
      String.mk (trimLeftCutset (path.data ++ delimChars ++
        (if containsDelim key.data then replaceDelim key.data else key.data))) ∧
    groupPath path "x[.]y" = groupPath path "x___y" ∧
    ((NewAttrGroupTree.WithAttrs
        [("x[.]y", Value.vstr "1"), ("x___y", Value.vstr "2")]).History.DeduplicatedAttrs).1 =
      [("x[.]y", Value.vstr "1"), ("x___y#01", Value.vstr "2")] := by
  refine ⟨?_, ?_, ?_⟩
  · cases hc : containsDelim key.data <;> simp [groupPath, hc]
  · rfl
  · simp [NewAttrGroupTree, AttrGroupTree.WithAttrs, AttrGroupTree.History,
      AttrGroupTree.historyGroups, AttrGroupTree.group, AttrGroupTree.ancestor,
      AttrGroupHistory.DeduplicatedAttrs, resolveGroups, resolveAttrs, groupPath,
      trackKey, deduplicatedKey, attrIsEmpty, KeyCounts.find, KeyCounts.set,
      KeyCounts.read, padTwo, containsDelim, trimLeftCutset, delimChars,
      inDelimCutset, Value.resolve]
    all_goals decide

/-- C10: the in-memory capturing handler's `Handle` returns nil for every
context, store and record: capturing a record cannot fail at the
`slog.Handler` boundary. -/
theorem memHandler_handle_returns_nil (h : MemHandler)
    (records : List LoggedRecord) (record : SlogRecord) :
    (h.Handle records record).2 = none := rfl

end Slogutil
